import Mathlib

/-!
# File-backed session store (Cutelyst `SessionStoreFile`)

A shallow embedding of `src/Cutelyst/Plugins/Session/sessionstorefile.cpp`.

* The request context is the pair of dynamic properties the store uses
  (`__session_store_file_data`, `__session_store_file_save`) together with the
  lambdas connected to `Context::destroyed`.
* The file system has directory entries and inodes. A file name denotes a
  directory entry (`Paths.resolve`: two names such as `s1` and `./s1` may denote
  the same one), a directory entry leads to an inode, an inode has the content.
  An open `QFile` holds the inode it was opened on: what is read and written
  through it goes to that inode, also after the name was removed or given to
  another file. `QFile::remove` and the lock file work on names.
* The lock file of `name` is the file `name + ".lock"` of the same name space:
  a lock that was taken and released leaves no file under that name.
* System calls whose result the source tests (`QFile::open`, `QDir::mkpath`,
  `QLockFile::lock`) get their result from a `SysOutcome`; the calls whose result
  the source ignores (`seek`, the stream write, `resize`, `flush`,
  `QFile::remove`) are taken to succeed.
* The file name of a session is `root + '/' + sid` with `root` a constant of the
  process; the model writes `sid` for it, and `Paths.resolve` stands for the
  resolution of the whole name.
-/

namespace Cutelyst

/-! ## Data model -/

abbrev QString := String

/-- The content of a file: a sequence of storage cells. -/
abbrev QByteArray := List Nat

/-- The tagged values a session stores. -/
inductive QVariant where
  | invalid
  | bool (b : Bool)
  | int (n : Int)
  | string (s : QString)
  deriving DecidableEq, Repr

/-- A `QVariantHash`, kept as an association list whose first entry for a key is
the one `value` finds. -/
abbrev QVariantHash := List (QString × QVariant)

namespace QHash

/-- `QHash::value(key, defaultValue)`. -/
def value (key : QString) (defaultValue : QVariant) : QVariantHash → QVariant
  | [] => defaultValue
  | (k, v) :: rest => if k = key then v else value key defaultValue rest

/-- `QHash::insert(key, value)`: the value of an existing key is replaced. -/
def insert (key : QString) (v : QVariant) : QVariantHash → QVariantHash
  | [] => [(key, v)]
  | (k, w) :: rest => if k = key then (key, v) :: rest else (k, w) :: insert key v rest

/-- `QHash::remove(key)`: every entry of the key goes. -/
def remove (key : QString) (h : QVariantHash) : QVariantHash :=
  h.filter (fun e => decide (e.1 ≠ key))

/-- `QHash::isEmpty()`. -/
def isEmpty (h : QVariantHash) : Bool := List.isEmpty h

end QHash

/-- The mapping encoder behind `QDataStream << QVariantHash` and
`QDataStream >> QVariantHash`. `deserialize` answers `none` when the stream
status is not `Ok`; `consumed` is how far the read moves the device position.
Qt clears the container before reading and reports `ReadPastEnd` on a device
with no data, which is the law `deserialize_nil`. -/
structure QDataStream where
  serialize : QVariantHash → QByteArray
  deserialize : QByteArray → Option QVariantHash
  consumed : QByteArray → Nat
  deserialize_nil : deserialize [] = none

/-- An open `QFile`: the name it was opened with, the inode the open found or
created, and the device position. -/
structure QFile where
  fileName : QString
  inode : Nat
  pos : Nat
  deriving DecidableEq, Repr

/-- The part of a `Context` the store touches. `session_store_file_data` is
`none` while the property is a null `QVariant`; `session_store_file_save` is
`property(SESSION_STORE_FILE_SAVE).toBool()`; `connections` are the files
captured by the lambdas connected to `Context::destroyed`, oldest first. -/
structure Context where
  session_store_file_data : Option QVariantHash
  session_store_file_save : Bool
  connections : List QFile
  deriving DecidableEq, Repr

/-- A context as the request cycle hands it out: no property set, nothing
connected. -/
def Context.fresh : Context :=
  { session_store_file_data := none, session_store_file_save := false, connections := [] }

/-- One access to the file system. -/
inductive FileAccess where
  | openFile (name : QString)
  | mkpath
  | lock (name : QString)
  | read (name : QString)
  | write (name : QString)
  | resize (name : QString)
  | remove (name : QString)
  deriving DecidableEq, Repr

/-- The name of the lock file, `fileName + ".lock"` (lines 127 and 148). -/
def lockFileName (fileName : QString) : QString :=
  fileName ++ ".lock"

/-- Which directory entry a file name denotes. Names that differ may denote the
same entry; a file and its lock file never do, their last components differ. -/
structure Paths where
  resolve : QString → QString
  lock_ne : ∀ name : QString, resolve (lockFileName name) ≠ resolve name

/-- The directory entries (`none`: no file under that entry), the content of
each inode, the next inode number to hand out, and the accesses made so far,
most recent first. -/
structure FileSystem where
  paths : Paths
  entries : QString → Option Nat
  inodes : Nat → QByteArray
  next : Nat
  accesses : List FileAccess

/-- Results of the system calls the source tests, for one call of the store or
one teardown. -/
structure SysOutcome where
  canOpen : QString → Bool
  mkpath : Bool
  canReopen : QString → Bool
  lock : QString → Bool

namespace FileSystem

/-- Record an access. -/
def note (fs : FileSystem) (a : FileAccess) : FileSystem :=
  { fs with accesses := a :: fs.accesses }

/-- The inode a file name leads to. -/
def lookup (fs : FileSystem) (name : QString) : Option Nat :=
  fs.entries (fs.paths.resolve name)

/-- The content of the file a name leads to, `none` when there is no file. -/
def files (fs : FileSystem) (name : QString) : Option QByteArray :=
  match fs.lookup name with
  | some i => some (fs.inodes i)
  | none => none

/-- The bytes under a name, none at all when there is no file. -/
def content (fs : FileSystem) (name : QString) : QByteArray :=
  (fs.files name).getD []

/-- A successful `open(QIODevice::ReadWrite)`: the handle is on the inode the
name leads to; when there is no file an empty one is created on a new inode. -/
def opened (fs : FileSystem) (name : QString) : FileSystem × QFile :=
  match fs.lookup name with
  | some i => (fs, { fileName := name, inode := i, pos := 0 })
  | none =>
    ({ fs with
        entries := fun e => if e = fs.paths.resolve name then some fs.next else fs.entries e
        inodes := fun i => if i = fs.next then [] else fs.inodes i
        next := fs.next + 1 },
     { fileName := name, inode := fs.next, pos := 0 })

/-- The directory entry of a name is taken away; the inode stays for the
handles that are open on it. -/
def unlink (fs : FileSystem) (name : QString) : FileSystem :=
  { fs with entries := fun e => if e = fs.paths.resolve name then none else fs.entries e }

/-- `QFile::remove(name)`. -/
def remove (fs : FileSystem) (name : QString) : FileSystem :=
  (fs.unlink name).note (FileAccess.remove name)

/-- `QLockFile::unlock()` after a successful `lock()`: the lock file, which the
lock had made its own, is removed. -/
def unlocked (fs : FileSystem) (fileName : QString) : FileSystem :=
  fs.unlink (lockFileName fileName)

/-- `QFile::size()` of an open file. -/
def size (fs : FileSystem) (file : QFile) : Nat :=
  (fs.inodes file.inode).length

/-- A change made through an open handle: it goes to the inode of the handle. -/
def modify (fs : FileSystem) (file : QFile) (f : QByteArray → QByteArray) : FileSystem :=
  { fs with inodes := fun i => if i = file.inode then f (fs.inodes i) else fs.inodes i }

end FileSystem

/-- Writing `bytes` at offset `pos` into `old`: a gap before `pos` reads as
zero, what lies behind the written range stays. -/
def overwrite (pos : Nat) (bytes old : QByteArray) : QByteArray :=
  old.take pos ++ List.replicate (pos - old.length) 0 ++ bytes ++ old.drop (pos + bytes.length)

/-- `QFile::resize(sz)` on the content. -/
def resized (sz : Nat) (old : QByteArray) : QByteArray :=
  old.take sz ++ List.replicate (sz - old.length) 0

/-! ## The store -/

/-- Lines 116 to 157 of `loadSessionData`: `file` is open. The lambda is
connected, the lock is tried, the mapping is read under the lock through the
open file, and the mapping (read or empty) is cached. The lambda holds the
`QFile` by pointer, so the connection carries the position the read leaves
behind. -/
def loadOpened (ds : QDataStream) (io : SysOutcome) (fs : FileSystem) (c : Context)
    (file : QFile) : QVariantHash × Context × FileSystem :=
  let fs1 := fs.note (FileAccess.lock file.fileName)
  if io.lock file.fileName then
    let bytes := (fs1.inodes file.inode).drop file.pos
    let data := (ds.deserialize bytes).getD []
    let file1 : QFile := { file with pos := file.pos + ds.consumed bytes }
    (data,
     { c with session_store_file_data := some data, connections := c.connections ++ [file1] },
     (fs1.note (FileAccess.read file.fileName)).unlocked file.fileName)
  else
    ([],
     { c with session_store_file_data := some [], connections := c.connections ++ [file] },
     fs1)

/-- `SessionStoreFilePrivate::loadSessionData`. -/
def loadSessionData (ds : QDataStream) (io : SysOutcome) (fs : FileSystem) (c : Context)
    (sid : QString) : QVariantHash × Context × FileSystem :=
  match c.session_store_file_data with
  | some data => (data, c, fs)
  | none =>
    let fs1 := fs.note (FileAccess.openFile sid)
    if io.canOpen sid then
      loadOpened ds io (fs1.opened sid).1 c (fs1.opened sid).2
    else
      let fs2 := fs1.note FileAccess.mkpath
      if !io.mkpath then
        ([], c, fs2)
      else
        let fs3 := fs2.note (FileAccess.openFile sid)
        if !io.canReopen sid then
          ([], c, fs3)
        else
          loadOpened ds io (fs3.opened sid).1 c (fs3.opened sid).2

/-- `SessionStoreFile::getSessionData`. -/
def getSessionData (ds : QDataStream) (io : SysOutcome) (fs : FileSystem) (c : Context)
    (sid key : QString) (defaultValue : QVariant) : QVariant × Context × FileSystem :=
  let r := loadSessionData ds io fs c sid
  (QHash.value key defaultValue r.1, r.2.1, r.2.2)

/-- `SessionStoreFile::storeSessionData`. -/
def storeSessionData (ds : QDataStream) (io : SysOutcome) (fs : FileSystem) (c : Context)
    (sid key : QString) (value : QVariant) : Bool × Context × FileSystem :=
  let r := loadSessionData ds io fs c sid
  let data := QHash.insert key value r.1
  (true,
   { r.2.1 with session_store_file_data := some data, session_store_file_save := true },
   r.2.2)

/-- `SessionStoreFile::deleteSessionData`. -/
def deleteSessionData (ds : QDataStream) (io : SysOutcome) (fs : FileSystem) (c : Context)
    (sid key : QString) : Bool × Context × FileSystem :=
  let r := loadSessionData ds io fs c sid
  let data := QHash.remove key r.1
  (true,
   { r.2.1 with session_store_file_data := some data, session_store_file_save := true },
   r.2.2)

/-- The lambda connected to `Context::destroyed` (lines 117 to 145), run for the
file it captured: the removal goes by the name of the file, the write and the
resize go through the open file. -/
def commit (ds : QDataStream) (io : SysOutcome) (c : Context) (fs : FileSystem)
    (file : QFile) : FileSystem :=
  if !c.session_store_file_save then
    fs
  else
    let data := c.session_store_file_data.getD []
    if QHash.isEmpty data then
      fs.remove file.fileName
    else
      let fs1 := fs.note (FileAccess.lock file.fileName)
      if io.lock file.fileName then
        let pos0 := if file.pos ≠ 0 then 0 else file.pos
        let bytes := ds.serialize data
        let fs2 := (fs1.modify file (overwrite pos0 bytes)).note
          (FileAccess.write file.fileName)
        let pos1 := pos0 + bytes.length
        let fs3 :=
          if pos1 < fs2.size file then
            (fs2.modify file (resized pos1)).note (FileAccess.resize file.fileName)
          else
            fs2
        fs3.unlocked file.fileName
      else
        fs1

/-- Teardown of the context: `Context::destroyed` runs the connected lambdas in
the order of connection. -/
def destroyed (ds : QDataStream) (io : SysOutcome) (c : Context) (fs : FileSystem) :
    FileSystem :=
  c.connections.foldl (commit ds io c) fs

/-- The file could be opened, at once or after `mkpath`. -/
def SysOutcome.opens (io : SysOutcome) (sid : QString) : Bool :=
  io.canOpen sid || (io.mkpath && io.canReopen sid)

/-! ## A concrete mapping encoder

A length-prefixed encoding in the manner of `QDataStream`: the number of
entries, then each key and value in turn. It serves to run the store on
concrete inputs. -/

namespace Wire

/-- A string: its length, then its characters. -/
def putString (s : QString) : QByteArray :=
  s.length :: s.data.map Char.toNat

/-- Read back a string, answering the rest of the input with it. -/
def getString : QByteArray → Option (QString × QByteArray)
  | [] => none
  | n :: rest =>
    if rest.length < n then none
    else some (String.mk ((rest.take n).map Char.ofNat), rest.drop n)

/-- A value: a type tag, then the payload. -/
def putVariant : QVariant → QByteArray
  | QVariant.invalid => [0]
  | QVariant.bool b => [1, if b then 1 else 0]
  | QVariant.int (Int.ofNat n) => [2, n]
  | QVariant.int (Int.negSucc n) => [3, n]
  | QVariant.string s => 4 :: putString s

/-- Read back a value. -/
def getVariant : QByteArray → Option (QVariant × QByteArray)
  | [] => none
  | tag :: rest =>
    if tag = 0 then some (QVariant.invalid, rest)
    else if tag = 4 then
      match getString rest with
      | some (s, rest1) => some (QVariant.string s, rest1)
      | none => none
    else
      match rest with
      | [] => none
      | n :: rest1 =>
        if tag = 1 then some (QVariant.bool (decide (n ≠ 0)), rest1)
        else if tag = 2 then some (QVariant.int (Int.ofNat n), rest1)
        else if tag = 3 then some (QVariant.int (Int.negSucc n), rest1)
        else none

/-- The entries of a mapping, one after the other. -/
def putEntries : QVariantHash → QByteArray
  | [] => []
  | (k, v) :: rest => putString k ++ putVariant v ++ putEntries rest

/-- Read back `n` entries. -/
def getEntries : Nat → QByteArray → Option (QVariantHash × QByteArray)
  | 0, bs => some ([], bs)
  | n + 1, bs =>
    match getString bs with
    | none => none
    | some (k, bs1) =>
      match getVariant bs1 with
      | none => none
      | some (v, bs2) =>
        match getEntries n bs2 with
        | none => none
        | some (rest, bs3) => some ((k, v) :: rest, bs3)

/-- The mapping on the wire: the entry count, then the entries. -/
def put (m : QVariantHash) : QByteArray :=
  m.length :: putEntries m

/-- Read back a mapping; `none` when the input ends early or a tag is unknown. -/
def get : QByteArray → Option QVariantHash
  | [] => none
  | n :: rest => (getEntries n rest).map Prod.fst

/-- How many cells `get` takes from the input. -/
def taken : QByteArray → Nat
  | [] => 0
  | n :: rest =>
    match getEntries n rest with
    | some (_, left) => rest.length + 1 - left.length
    | none => rest.length + 1

end Wire

/-- The concrete encoder as a `QDataStream`. -/
def wire : QDataStream :=
  { serialize := Wire.put
    deserialize := Wire.get
    consumed := Wire.taken
    deserialize_nil := rfl }

/-! ## Scenarios -/

/-- One call of `getSessionData`, with the outcomes of its system calls. -/
structure GetCall where
  io : SysOutcome
  sid : QString
  key : QString
  defaultValue : QVariant

/-- A run of `getSessionData` calls on one context, in order. -/
def getCalls (ds : QDataStream) : List GetCall → Context × FileSystem → Context × FileSystem
  | [], st => st
  | g :: rest, st =>
    getCalls ds rest (getSessionData ds g.io st.2 st.1 g.sid g.key g.defaultValue).2

/-- Store a key, then delete it in the same context. -/
def storeThenDelete (ds : QDataStream) (io1 io2 : SysOutcome) (fs : FileSystem) (c : Context)
    (sid key : QString) (value : QVariant) : Context × FileSystem :=
  let s := storeSessionData ds io1 fs c sid key value
  (deleteSessionData ds io2 s.2.2 s.2.1 sid key).2

/-- A call of the public interface on a session. -/
inductive Request where
  | get (key : QString) (defaultValue : QVariant)
  | store (key : QString) (value : QVariant)
  | delete (key : QString)

/-- Run a request, keeping the context and the file system it leaves. -/
def Request.run (ds : QDataStream) (io : SysOutcome) (fs : FileSystem) (c : Context)
    (sid : QString) : Request → Context × FileSystem
  | Request.get key defaultValue => (getSessionData ds io fs c sid key defaultValue).2
  | Request.store key value => (storeSessionData ds io fs c sid key value).2
  | Request.delete key => (deleteSessionData ds io fs c sid key).2

/-! ## Concrete inputs -/

/-- Every system call succeeds. -/
def ioOk : SysOutcome :=
  { canOpen := fun _ => true, mkpath := true, canReopen := fun _ => true, lock := fun _ => true }

/-- The session file cannot be opened: `open` fails, `mkpath` finds the
directory, `open` fails again (a file the process may not read or write). -/
def ioNoOpen : SysOutcome :=
  { canOpen := fun _ => false, mkpath := true, canReopen := fun _ => false,
    lock := fun _ => true }

/-- The lock cannot be taken. -/
def ioNoLock : SysOutcome :=
  { canOpen := fun _ => true, mkpath := true, canReopen := fun _ => true, lock := fun _ => false }

/-- Name resolution in which `./s1` is the file `s1` and every other name is its
own directory entry. -/
def dotPaths : Paths :=
  { resolve := fun name => if name = "./s1" then "s1" else name
    lock_ne := by
      intro name
      have h5 : (".lock" : String).length = 5 := by decide
      have h4 : ("./s1" : String).length = 4 := by decide
      have h2 : ("s1" : String).length = 2 := by decide
      have hlen : (lockFileName name).length = name.length + 5 := by
        rw [lockFileName, String.length_append, h5]
      have hlock : lockFileName name ≠ "./s1" := by
        intro h
        have hl := congrArg String.length h
        rw [hlen, h4] at hl
        omega
      simp only [hlock, if_false]
      split
      · intro h
        have hl := congrArg String.length h
        rw [hlen, h2] at hl
        omega
      · intro h
        have hl := congrArg String.length h
        rw [hlen] at hl
        omega }

/-- The file system with one session file, `s1`, of the given content. -/
def fsWith (bytes : QByteArray) : FileSystem :=
  { paths := dotPaths
    entries := fun e => if e = "s1" then some 0 else none
    inodes := fun i => if i = 0 then bytes else []
    next := 1
    accesses := [] }

/-- One session file, `s1`, holding the mapping with the key `user`. -/
def fsOne : FileSystem :=
  fsWith (Wire.put [("user", QVariant.string "ann")])

/-- One session file, `s1`, holding the keys `a`, `b` and `c`. -/
def fsThree : FileSystem :=
  fsWith (Wire.put [("a", QVariant.int 1), ("b", QVariant.int 2), ("c", QVariant.int 3)])

/-- One session file, `s1`, whose bytes are no mapping. -/
def fsGarbage : FileSystem :=
  fsWith [7, 7, 7]

/-- A first read of `s1` on a fresh context, every system call succeeding. -/
def readOne : QVariant × Context × FileSystem :=
  getSessionData wire ioOk fsOne Context.fresh "s1" "user" QVariant.invalid

/-- After `readOne`, a store on the same context under another session id. -/
def storedOther : Bool × Context × FileSystem :=
  storeSessionData wire ioOk readOne.2.2 readOne.2.1 "s2" "k" (QVariant.int 1)

/-- After `readOne`, a store on the same context under the session id `./s1`,
another name of the file of `s1`. -/
def storedAlias : Bool × Context × FileSystem :=
  storeSessionData wire ioOk readOne.2.2 readOne.2.1 "./s1" "k" (QVariant.int 1)

/-- A first read of `s1` on a fresh context when the file cannot be opened. -/
def readUnopened : QVariant × Context × FileSystem :=
  getSessionData wire ioNoOpen fsOne Context.fresh "s1" "user" QVariant.invalid

/-- The key `c` deleted from the three keys of `fsThree`, on a fresh context. -/
def deletedC : Bool × Context × FileSystem :=
  deleteSessionData wire ioOk fsThree Context.fresh "s1" "c"

/-- A key stored into the session of `fsOne`, on a fresh context. -/
def storedOne : Bool × Context × FileSystem :=
  storeSessionData wire ioOk fsOne Context.fresh "s1" "k" (QVariant.int 1)

/-- Store then delete of the key `k` on a fresh context that cannot open `s1`. -/
def emptiedUnopened : Context × FileSystem :=
  storeThenDelete wire ioNoOpen ioNoOpen fsOne Context.fresh "s1" "k" (QVariant.int 1)

/-- While the context of `storedOne` is alive, a second context deletes the
only key of `s1` and is torn down: the file of `s1` is removed. -/
def afterSecond : FileSystem :=
  destroyed wire ioOk
    (deleteSessionData wire ioOk storedOne.2.2 Context.fresh "s1" "user").2.1
    (deleteSessionData wire ioOk storedOne.2.2 Context.fresh "s1" "user").2.2

/-- Then a third context stores the key `x` under `s1` and is torn down: a new
file of `s1` holds that one key. -/
def afterThird : FileSystem :=
  destroyed wire ioOk
    (storeSessionData wire ioOk afterSecond Context.fresh "s1" "x" (QVariant.int 1)).2.1
    (storeSessionData wire ioOk afterSecond Context.fresh "s1" "x" (QVariant.int 1)).2.2

/-! ## Lemmas on the mapping -/

namespace QHash

theorem value_insert_self (key : QString) (v d : QVariant) (h : QVariantHash) :
    value key d (insert key v h) = v := by
  induction h with
  | nil => simp [insert, value]
  | cons e rest ih =>
    obtain ⟨k, w⟩ := e
    by_cases hk : k = key
    · simp [insert, value, hk]
    · simp [insert, value, hk, ih]

theorem insert_ne_nil (key : QString) (v : QVariant) (h : QVariantHash) :
    insert key v h ≠ [] := by
  cases h with
  | nil => simp [insert]
  | cons e rest =>
    obtain ⟨k, w⟩ := e
    by_cases hk : k = key <;> simp [insert, hk]

theorem isEmpty_eq_false_of_ne_nil {h : QVariantHash} (hne : h ≠ []) : isEmpty h = false := by
  cases h with
  | nil => exact absurd rfl hne
  | cons e rest => rfl

theorem value_remove_self (key : QString) (d : QVariant) (h : QVariantHash) :
    value key d (remove key h) = d := by
  induction h with
  | nil => simp [remove, value]
  | cons e rest ih =>
    obtain ⟨k, w⟩ := e
    by_cases hk : k = key
    · simpa [remove, hk] using ih
    · simpa [remove, hk, value] using ih

theorem value_remove_other (key other : QString) (d : QVariant) (h : QVariantHash)
    (hne : other ≠ key) : value other d (remove key h) = value other d h := by
  induction h with
  | nil => simp [remove, value]
  | cons e rest ih =>
    obtain ⟨k, w⟩ := e
    by_cases hk : k = key
    · subst hk
      have hko : ¬k = other := fun h2 => hne h2.symm
      simpa [remove, value, hko] using ih
    · by_cases ho : k = other
      · subst ho
        simp [remove, hk, value]
      · simpa [remove, hk, value, ho] using ih

theorem remove_insert_nil (key : QString) (v : QVariant) :
    remove key (insert key v []) = [] := by
  simp [remove, insert]

end QHash

/-! ## Lemmas on the file system -/

namespace FileSystem

@[simp] theorem note_paths (fs : FileSystem) (a : FileAccess) : (fs.note a).paths = fs.paths :=
  rfl

@[simp] theorem note_entries (fs : FileSystem) (a : FileAccess) :
    (fs.note a).entries = fs.entries := rfl

@[simp] theorem note_inodes (fs : FileSystem) (a : FileAccess) :
    (fs.note a).inodes = fs.inodes := rfl

@[simp] theorem note_lookup (fs : FileSystem) (a : FileAccess) (n : QString) :
    (fs.note a).lookup n = fs.lookup n := rfl

@[simp] theorem note_files (fs : FileSystem) (a : FileAccess) : (fs.note a).files = fs.files :=
  rfl

@[simp] theorem note_content (fs : FileSystem) (a : FileAccess) (n : QString) :
    (fs.note a).content n = fs.content n := rfl

@[simp] theorem note_size (fs : FileSystem) (a : FileAccess) (file : QFile) :
    (fs.note a).size file = fs.size file := rfl

/-- Two file systems with the same names, entries and inodes show the same
files. -/
theorem files_congr {fs gs : FileSystem} (hp : gs.paths = fs.paths)
    (he : gs.entries = fs.entries) (hi : gs.inodes = fs.inodes) : gs.files = fs.files := by
  funext n
  simp [files, lookup, hp, he, hi]

theorem files_of_lookup (fs : FileSystem) (n : QString) (i : Nat)
    (h : fs.lookup n = some i) : fs.files n = some (fs.inodes i) := by
  simp [files, h]

theorem files_eq_none (fs : FileSystem) (n : QString) (h : fs.lookup n = none) :
    fs.files n = none := by
  simp [files, h]

theorem content_of_lookup (fs : FileSystem) (n : QString) (i : Nat)
    (h : fs.lookup n = some i) : fs.content n = fs.inodes i := by
  simp [content, files, h]

@[simp] theorem opened_paths (fs : FileSystem) (n : QString) : (fs.opened n).1.paths = fs.paths := by
  unfold opened
  cases fs.lookup n <;> rfl

@[simp] theorem opened_fileName (fs : FileSystem) (n : QString) :
    (fs.opened n).2.fileName = n := by
  unfold opened
  cases fs.lookup n <;> rfl

theorem opened_lookup (fs : FileSystem) (n : QString) :
    (fs.opened n).1.lookup n = some (fs.opened n).2.inode := by
  unfold opened
  cases h : fs.lookup n with
  | some i => exact h
  | none => simp [lookup]

theorem opened_inode (fs : FileSystem) (n : QString) :
    (fs.opened n).1.inodes (fs.opened n).2.inode = fs.content n := by
  unfold opened
  cases h : fs.lookup n with
  | some i => simp [content, files, h]
  | none => simp [content, files, h]

theorem unlink_paths (fs : FileSystem) (n : QString) : (fs.unlink n).paths = fs.paths := rfl

theorem unlink_inodes (fs : FileSystem) (n : QString) : (fs.unlink n).inodes = fs.inodes := rfl

theorem unlink_lookup_self (fs : FileSystem) (n : QString) : (fs.unlink n).lookup n = none := by
  simp [unlink, lookup]

theorem unlink_lookup_other (fs : FileSystem) (n m : QString)
    (h : fs.paths.resolve m ≠ fs.paths.resolve n) : (fs.unlink n).lookup m = fs.lookup m := by
  simp [unlink, lookup, h]

/-- Releasing the lock of a file leaves the file itself under its name. -/
theorem unlocked_lookup_self (fs : FileSystem) (n : QString) :
    (fs.unlocked n).lookup n = fs.lookup n :=
  unlink_lookup_other fs (lockFileName n) n (fun h => fs.paths.lock_ne n h.symm)

theorem unlocked_lookup_other (fs : FileSystem) (n m : QString)
    (h : fs.paths.resolve m ≠ fs.paths.resolve (lockFileName n)) :
    (fs.unlocked n).lookup m = fs.lookup m :=
  unlink_lookup_other fs (lockFileName n) m h

theorem remove_files_self (fs : FileSystem) (n : QString) : (fs.remove n).files n = none := by
  apply files_eq_none
  exact unlink_lookup_self fs n

end FileSystem

/-- What the write branch of the commit leaves in the file: the new bytes put
at offset 0, then cut to their length when the file is longer. -/
theorem overwrite_then_resize (bytes old : QByteArray) :
    (if bytes.length < (overwrite 0 bytes old).length then
        resized bytes.length (overwrite 0 bytes old)
      else overwrite 0 bytes old) = bytes := by
  have hov : overwrite 0 bytes old = bytes ++ old.drop bytes.length := by
    simp [overwrite]
  rw [hov]
  split
  · simp [resized]
  · rename_i hlt
    have hlen : (old.drop bytes.length).length = 0 := by
      simp only [List.length_append] at hlt
      omega
    have hnil : old.drop bytes.length = [] := List.length_eq_zero.mp hlen
    simp [hnil]

/-! ## Lemmas on loading -/

theorem loadSessionData_cached (ds : QDataStream) (io : SysOutcome) (fs : FileSystem)
    (c : Context) (sid : QString) (m : QVariantHash)
    (h : c.session_store_file_data = some m) :
    loadSessionData ds io fs c sid = (m, c, fs) := by
  simp [loadSessionData, h]

theorem loadSessionData_save (ds : QDataStream) (io : SysOutcome) (fs : FileSystem)
    (c : Context) (sid : QString) :
    (loadSessionData ds io fs c sid).2.1.session_store_file_save
      = c.session_store_file_save := by
  unfold loadSessionData loadOpened
  cases c.session_store_file_data <;> simp only []
  repeat' split
  all_goals rfl

/-- What `loadOpened` gives on a file that stands at position 0: the mapping
read from the inode of the file (none without the lock), cached; one more
connection, on the same name and inode; names, inodes and the entry of the
file as before. -/
theorem loadOpened_spec (ds : QDataStream) (io : SysOutcome) (g : FileSystem)
    (c : Context) (file : QFile) (hpos : file.pos = 0) :
    (loadOpened ds io g c file).1
      = (if io.lock file.fileName then (ds.deserialize (g.inodes file.inode)).getD []
          else []) ∧
    (loadOpened ds io g c file).2.1.session_store_file_data
      = some (loadOpened ds io g c file).1 ∧
    (∃ p, (loadOpened ds io g c file).2.1.connections
      = c.connections ++ [{ fileName := file.fileName, inode := file.inode, pos := p }]) ∧
    (loadOpened ds io g c file).2.2.paths = g.paths ∧
    (loadOpened ds io g c file).2.2.inodes = g.inodes ∧
    (loadOpened ds io g c file).2.2.lookup file.fileName = g.lookup file.fileName := by
  unfold loadOpened
  cases hl : io.lock file.fileName
  · refine ⟨by simp, by simp, ⟨0, by simp [← hpos]⟩, rfl, rfl, rfl⟩
  · refine ⟨by simp [hpos], by simp, ⟨file.pos + ds.consumed ((g.inodes file.inode).drop
      file.pos), by simp⟩, rfl, rfl, ?_⟩
    simp only [if_true]
    rw [FileSystem.unlocked_lookup_self]
    rfl

theorem loadSessionData_eq_loadOpened (ds : QDataStream) (io : SysOutcome) (fs : FileSystem)
    (c : Context) (sid : QString) (hnone : c.session_store_file_data = none)
    (hopen : io.opens sid = true) :
    ∃ g : FileSystem, g.paths = fs.paths ∧ g.entries = fs.entries ∧ g.inodes = fs.inodes ∧
      g.next = fs.next ∧
      loadSessionData ds io fs c sid = loadOpened ds io (g.opened sid).1 c (g.opened sid).2 := by
  unfold SysOutcome.opens at hopen
  unfold loadSessionData
  rw [hnone]
  by_cases h1 : io.canOpen sid = true
  · exact ⟨fs.note (FileAccess.openFile sid), rfl, rfl, rfl, rfl, by simp [h1]⟩
  · have h1f : io.canOpen sid = false := by simpa using h1
    rw [h1f] at hopen
    simp only [Bool.false_or, Bool.and_eq_true] at hopen
    obtain ⟨hm, h2⟩ := hopen
    exact ⟨((fs.note (FileAccess.openFile sid)).note FileAccess.mkpath).note
      (FileAccess.openFile sid), rfl, rfl, rfl, rfl, by simp [h1f, hm, h2]⟩

/-- A load that opens the file, on a context without a cached mapping. -/
theorem loadSessionData_of_opens (ds : QDataStream) (io : SysOutcome) (fs : FileSystem)
    (c : Context) (sid : QString) (hnone : c.session_store_file_data = none)
    (hopen : io.opens sid = true) :
    (loadSessionData ds io fs c sid).1
      = (if io.lock sid then (ds.deserialize (fs.content sid)).getD [] else []) ∧
    (loadSessionData ds io fs c sid).2.1.session_store_file_data
      = some (loadSessionData ds io fs c sid).1 ∧
    (loadSessionData ds io fs c sid).2.2.paths = fs.paths ∧
    ∃ file : QFile, file.fileName = sid ∧
      (loadSessionData ds io fs c sid).2.1.connections = c.connections ++ [file] ∧
      (loadSessionData ds io fs c sid).2.2.lookup sid = some file.inode ∧
      (loadSessionData ds io fs c sid).2.2.inodes file.inode = fs.content sid := by
  obtain ⟨g, hgp, hge, hgi, _, heq⟩ := loadSessionData_eq_loadOpened ds io fs c sid hnone hopen
  have hpos : (g.opened sid).2.pos = 0 := by
    unfold FileSystem.opened
    cases g.lookup sid <;> rfl
  obtain ⟨hd, hc, ⟨p, hp⟩, hpaths, hin, hlk⟩ :=
    loadOpened_spec ds io (g.opened sid).1 c (g.opened sid).2 hpos
  have hcont : g.content sid = fs.content sid := by
    simp [FileSystem.content, FileSystem.files, FileSystem.lookup, hgp, hge, hgi]
  rw [FileSystem.opened_fileName] at hd hlk hp
  rw [heq]
  refine ⟨?_, hc, ?_, ⟨_, rfl, hp, ?_, ?_⟩⟩
  · rw [hd, FileSystem.opened_inode, hcont]
  · rw [hpaths, FileSystem.opened_paths, hgp]
  · rw [hlk, FileSystem.opened_lookup]
  · rw [hin, FileSystem.opened_inode, hcont]

theorem loadSessionData_of_not_opens (ds : QDataStream) (io : SysOutcome) (fs : FileSystem)
    (c : Context) (sid : QString) (hnone : c.session_store_file_data = none)
    (hopen : io.opens sid = false) :
    (loadSessionData ds io fs c sid).1 = [] ∧
    (loadSessionData ds io fs c sid).2.1 = c ∧
    (loadSessionData ds io fs c sid).2.2.files = fs.files := by
  unfold SysOutcome.opens at hopen
  simp only [Bool.or_eq_false_iff, Bool.and_eq_false_iff] at hopen
  obtain ⟨h1, h2⟩ := hopen
  unfold loadSessionData
  rw [hnone]
  rcases h2 with hm | h2
  · simp [h1, hm]
  · cases hm : io.mkpath <;> simp [h1, hm, h2]

/-! ## Lemmas on the commit -/

theorem commit_clean (ds : QDataStream) (io : SysOutcome) (c : Context) (fs : FileSystem)
    (file : QFile) (hsave : c.session_store_file_save = false) :
    commit ds io c fs file = fs := by
  simp [commit, hsave]

theorem commit_empty (ds : QDataStream) (io : SysOutcome) (c : Context)
    (fs : FileSystem) (file : QFile) (hsave : c.session_store_file_save = true)
    (hdata : c.session_store_file_data.getD [] = []) :
    commit ds io c fs file = fs.remove file.fileName := by
  simp [commit, hsave, hdata, QHash.isEmpty]

/-- Without the lock the commit of a non-empty mapping changes the trace of
accesses at most. -/
theorem commit_nolock (ds : QDataStream) (io : SysOutcome) (c : Context)
    (fs : FileSystem) (file : QFile) (m : QVariantHash)
    (hdata : c.session_store_file_data = some m) (hne : m ≠ [])
    (hlock : io.lock file.fileName = false) :
    (commit ds io c fs file).paths = fs.paths ∧
    (commit ds io c fs file).entries = fs.entries ∧
    (commit ds io c fs file).inodes = fs.inodes := by
  unfold commit
  cases hs : c.session_store_file_save
  · exact ⟨rfl, rfl, rfl⟩
  · simp [hdata, QHash.isEmpty_eq_false_of_ne_nil hne, hlock]

/-- With the lock the commit of a non-empty mapping leaves exactly the encoded
mapping in the inode of the open file, whatever the inode held; the names stay
but for the lock file, which is gone. -/
theorem commit_write (ds : QDataStream) (io : SysOutcome) (c : Context)
    (fs : FileSystem) (file : QFile) (m : QVariantHash)
    (hsave : c.session_store_file_save = true)
    (hdata : c.session_store_file_data = some m) (hne : m ≠ [])
    (hlock : io.lock file.fileName = true) :
    (commit ds io c fs file).paths = fs.paths ∧
    (commit ds io c fs file).entries = (fs.unlocked file.fileName).entries ∧
    (commit ds io c fs file).inodes
      = fun i => if i = file.inode then ds.serialize m else fs.inodes i := by
  have hpos : (if file.pos ≠ 0 then 0 else file.pos) = 0 := by
    split
    · rfl
    · rename_i h
      simpa using h
  have hfin := overwrite_then_resize (ds.serialize m) (fs.inodes file.inode)
  unfold commit
  simp only [hsave, hdata, QHash.isEmpty_eq_false_of_ne_nil hne, hlock, hpos, Bool.not_true,
    Bool.false_eq_true, if_false, if_true, Option.getD_some, Nat.zero_add,
    FileSystem.note_size]
  have hsize : ((fs.note (FileAccess.lock file.fileName)).modify file
      (overwrite 0 (ds.serialize m))).size file
        = (overwrite 0 (ds.serialize m) (fs.inodes file.inode)).length := by
    simp [FileSystem.size, FileSystem.modify]
  rw [hsize]
  split
  · rename_i hlt
    rw [if_pos hlt] at hfin
    refine ⟨rfl, rfl, ?_⟩
    funext i
    by_cases hi : i = file.inode
    · subst hi
      simp [FileSystem.unlocked, FileSystem.unlink, FileSystem.modify, FileSystem.note, hfin]
    · simp [FileSystem.unlocked, FileSystem.unlink, FileSystem.modify, FileSystem.note, hi]
  · rename_i hlt
    rw [if_neg hlt] at hfin
    refine ⟨rfl, rfl, ?_⟩
    funext i
    by_cases hi : i = file.inode
    · subst hi
      simp [FileSystem.unlocked, FileSystem.unlink, FileSystem.modify, FileSystem.note, hfin]
    · simp [FileSystem.unlocked, FileSystem.unlink, FileSystem.modify, FileSystem.note, hi]

/-! ## Lemmas on the teardown -/

theorem foldl_commit_clean (ds : QDataStream) (io : SysOutcome) (c : Context)
    (hsave : c.session_store_file_save = false) (l : List QFile) (fs : FileSystem) :
    l.foldl (commit ds io c) fs = fs := by
  induction l generalizing fs with
  | nil => rfl
  | cons f rest ih => rw [List.foldl_cons, commit_clean ds io c fs f hsave, ih]

theorem foldl_commit_nolock (ds : QDataStream) (io : SysOutcome) (c : Context)
    (m : QVariantHash) (hdata : c.session_store_file_data = some m) (hne : m ≠ [])
    (l : List QFile) (fs : FileSystem)
    (hl : ∀ f ∈ l, io.lock f.fileName = false) :
    (l.foldl (commit ds io c) fs).paths = fs.paths ∧
    (l.foldl (commit ds io c) fs).entries = fs.entries ∧
    (l.foldl (commit ds io c) fs).inodes = fs.inodes := by
  induction l generalizing fs with
  | nil => exact ⟨rfl, rfl, rfl⟩
  | cons f rest ih =>
    rw [List.foldl_cons]
    obtain ⟨h1, h2, h3⟩ := ih (commit ds io c fs f)
      (fun g hg => hl g (List.mem_cons_of_mem _ hg))
    obtain ⟨k1, k2, k3⟩ :=
      commit_nolock ds io c fs f m hdata hne (hl f (List.mem_cons_self _ _))
    exact ⟨h1.trans k1, h2.trans k2, h3.trans k3⟩

/-- The teardown of a context with one connection is the commit for its file. -/
theorem destroyed_single (ds : QDataStream) (io : SysOutcome) (c : Context) (fs : FileSystem)
    (file : QFile) (hconn : c.connections = [file]) :
    destroyed ds io c fs = commit ds io c fs file := by
  simp [destroyed, hconn]

/-- After the written commit of the one connection, a name that still led to
the inode of the open file shows the encoded mapping. -/
theorem destroyed_write_files (ds : QDataStream) (io : SysOutcome) (c : Context)
    (fs : FileSystem) (file : QFile) (m : QVariantHash)
    (hsave : c.session_store_file_save = true)
    (hdata : c.session_store_file_data = some m) (hne : m ≠ [])
    (hconn : c.connections = [file])
    (hlink : fs.lookup file.fileName = some file.inode)
    (hlock : io.lock file.fileName = true) :
    (destroyed ds io c fs).files file.fileName = some (ds.serialize m) := by
  rw [destroyed_single ds io c fs file hconn]
  obtain ⟨hp, he, hi⟩ := commit_write ds io c fs file m hsave hdata hne hlock
  have hlk : (commit ds io c fs file).lookup file.fileName = some file.inode := by
    unfold FileSystem.lookup
    rw [hp, he]
    exact (FileSystem.unlocked_lookup_self fs file.fileName).trans hlink
  rw [FileSystem.files_of_lookup _ _ _ hlk, hi]
  simp

/-! ## The concrete encoder reads back what it writes -/

namespace Wire

theorem getString_putString (s : QString) (rest : QByteArray) :
    getString (putString s ++ rest) = some (s, rest) := by
  obtain ⟨chars⟩ := s
  have hlen : (chars.map Char.toNat).length = (String.mk chars).length := by
    rw [List.length_map]
    rfl
  have hchars : (chars.map Char.toNat).map Char.ofNat = chars := by
    rw [List.map_map]
    conv_rhs => rw [← List.map_id chars]
    apply List.map_congr_left
    intro ch _
    simp
  simp only [putString, List.cons_append, getString]
  rw [if_neg (by rw [List.length_append, hlen]; omega), List.take_left' hlen,
    List.drop_left' hlen, hchars]

theorem getVariant_putVariant (v : QVariant) (rest : QByteArray) :
    getVariant (putVariant v ++ rest) = some (v, rest) := by
  cases v with
  | invalid => simp [putVariant, getVariant]
  | bool b => cases b <;> simp [putVariant, getVariant]
  | int n => cases n <;> simp [putVariant, getVariant]
  | string s => simp [putVariant, getVariant, getString_putString]

theorem getEntries_putEntries (m : QVariantHash) (rest : QByteArray) :
    getEntries m.length (putEntries m ++ rest) = some (m, rest) := by
  induction m with
  | nil => simp [putEntries, getEntries]
  | cons e tail ih =>
    obtain ⟨k, v⟩ := e
    simp only [putEntries, List.length_cons, getEntries, List.append_assoc,
      getString_putString, getVariant_putVariant, ih]

theorem get_put (m : QVariantHash) : get (put m) = some m := by
  have h := getEntries_putEntries m []
  rw [List.append_nil] at h
  simp [put, get, h]

end Wire

theorem wire_round_trip (m : QVariantHash) : wire.deserialize (wire.serialize m) = some m :=
  Wire.get_put m

/-! ## Lemmas on the public calls -/

theorem getCalls_save (ds : QDataStream) (calls : List GetCall) (c : Context)
    (fs : FileSystem) (hsave : c.session_store_file_save = false) :
    (getCalls ds calls (c, fs)).1.session_store_file_save = false := by
  induction calls generalizing c fs with
  | nil => exact hsave
  | cons g rest ih =>
    simp only [getCalls]
    apply ih
    rw [loadSessionData_save]
    exact hsave

/-- After a first request that opened the session file, the context holds a
mapping and exactly one connection, on that file name and on the inode the
name leads to. -/
theorem Request.run_of_opens (ds : QDataStream) (io : SysOutcome) (fs : FileSystem)
    (sid : QString) (first : Request) (hopen : io.opens sid = true) :
    ∃ (m : QVariantHash) (file : QFile),
      (first.run ds io fs Context.fresh sid).1.session_store_file_data = some m ∧
      (first.run ds io fs Context.fresh sid).1.connections = [file] ∧
      file.fileName = sid ∧
      (first.run ds io fs Context.fresh sid).2.lookup sid = some file.inode ∧
      (first.run ds io fs Context.fresh sid).2.paths = fs.paths := by
  obtain ⟨_, hc, hpaths, file, hname, hp, hlk, _⟩ :=
    loadSessionData_of_opens ds io fs Context.fresh sid rfl hopen
  have hp2 : (loadSessionData ds io fs Context.fresh sid).2.1.connections = [file] := by
    rw [hp]
    rfl
  cases first with
  | get key defaultValue => exact ⟨_, file, hc, hp2, hname, hlk, hpaths⟩
  | store key value => exact ⟨_, file, rfl, hp2, hname, hlk, hpaths⟩
  | delete key => exact ⟨_, file, rfl, hp2, hname, hlk, hpaths⟩

theorem storeThenDelete_spec (ds : QDataStream) (io1 io2 : SysOutcome) (fs : FileSystem)
    (c : Context) (sid key : QString) (v : QVariant) :
    (storeThenDelete ds io1 io2 fs c sid key v).1.session_store_file_save = true ∧
    (storeThenDelete ds io1 io2 fs c sid key v).1.session_store_file_data
      = some (QHash.remove key (QHash.insert key v (loadSessionData ds io1 fs c sid).1)) ∧
    (storeThenDelete ds io1 io2 fs c sid key v).1.connections
      = (loadSessionData ds io1 fs c sid).2.1.connections ∧
    (storeThenDelete ds io1 io2 fs c sid key v).2 = (loadSessionData ds io1 fs c sid).2.2 := by
  unfold storeThenDelete deleteSessionData
  simp only []
  rw [loadSessionData_cached ds io2 _ (storeSessionData ds io1 fs c sid key v).2.1 sid
    (QHash.insert key v (loadSessionData ds io1 fs c sid).1) rfl]
  refine ⟨?_, ?_, ?_, ?_⟩ <;> trivial

/-- A fresh context that cannot open the file, or reads no mapping from it,
answers the default. -/
theorem getSessionData_fresh_default (ds : QDataStream) (io : SysOutcome)
    (fs : FileSystem) (sid key : QString) (d : QVariant)
    (h : io.opens sid = false ∨ ds.deserialize (fs.content sid) = none) :
    (getSessionData ds io fs Context.fresh sid key d).1 = d := by
  unfold getSessionData
  simp only []
  cases hopen : io.opens sid
  · rw [(loadSessionData_of_not_opens ds io fs Context.fresh sid rfl hopen).1]
    rfl
  · have hnone : ds.deserialize (fs.content sid) = none := by
      rcases h with h | h
      · rw [hopen] at h
        cases h
      · exact h
    rw [(loadSessionData_of_opens ds io fs Context.fresh sid rfl hopen).1, hnone]
    cases io.lock sid <;> rfl

/-! ## The claims -/

/-- C1, round trip across contexts. Whatever the session file held before
(absent, empty, a mapping or garbage), when the first context opens the file,
the commit takes the lock, and the second context opens the file and takes the
lock, then `storeSessionData` on a fresh context, the teardown of that context
and `getSessionData` on another fresh context give back the stored value,
provided the encoder reads back what it writes. The lock of the first load is
not needed. -/
theorem round_trip_across_contexts (ds : QDataStream) (io1 io2 io3 : SysOutcome)
    (fs : FileSystem) (sid key : QString) (v d : QVariant)
    (hcodec : ∀ m, ds.deserialize (ds.serialize m) = some m)
    (hopen1 : io1.opens sid = true)
    (hlock2 : io2.lock sid = true)
    (hopen3 : io3.opens sid = true)
    (hlock3 : io3.lock sid = true) :
    (getSessionData ds io3
      (destroyed ds io2 (storeSessionData ds io1 fs Context.fresh sid key v).2.1
        (storeSessionData ds io1 fs Context.fresh sid key v).2.2)
      Context.fresh sid key d).1 = v := by
  obtain ⟨_, _, _, file, hname, hp, hlk, _⟩ :=
    loadSessionData_of_opens ds io1 fs Context.fresh sid rfl hopen1
  have hwritten :
      (destroyed ds io2 (storeSessionData ds io1 fs Context.fresh sid key v).2.1
        (storeSessionData ds io1 fs Context.fresh sid key v).2.2).files sid
        = some (ds.serialize
            (QHash.insert key v (loadSessionData ds io1 fs Context.fresh sid).1)) := by
    have hconn : (storeSessionData ds io1 fs Context.fresh sid key v).2.1.connections
        = [file] := by
      show (loadSessionData ds io1 fs Context.fresh sid).2.1.connections = [file]
      rw [hp]
      rfl
    have hw := destroyed_write_files ds io2
      (storeSessionData ds io1 fs Context.fresh sid key v).2.1
      (storeSessionData ds io1 fs Context.fresh sid key v).2.2 file
      (QHash.insert key v (loadSessionData ds io1 fs Context.fresh sid).1) rfl rfl
      (QHash.insert_ne_nil _ _ _) hconn (by rw [hname]; exact hlk) (by rw [hname]; exact hlock2)
    rw [hname] at hw
    exact hw
  obtain ⟨hd, _⟩ := loadSessionData_of_opens ds io3
    (destroyed ds io2 (storeSessionData ds io1 fs Context.fresh sid key v).2.1
      (storeSessionData ds io1 fs Context.fresh sid key v).2.2) Context.fresh sid rfl hopen3
  unfold getSessionData
  simp only []
  rw [hd, if_pos hlock3]
  simp only [FileSystem.content, hwritten, Option.getD_some, hcodec]
  exact QHash.value_insert_self key v d _

/-- C2, read your writes. For every context (cache populated or not), every
file system and every outcome of the system calls, `getSessionData` after
`storeSessionData` on the same context returns the stored value; it leaves the
context and the file system, the trace of accesses included, as the store left
them. -/
theorem read_your_writes (ds : QDataStream) (io1 io2 : SysOutcome) (fs : FileSystem)
    (c : Context) (sid key : QString) (v d : QVariant) :
    getSessionData ds io2 (storeSessionData ds io1 fs c sid key v).2.2
      (storeSessionData ds io1 fs c sid key v).2.1 sid key d
      = (v, (storeSessionData ds io1 fs c sid key v).2.1,
          (storeSessionData ds io1 fs c sid key v).2.2) := by
  unfold getSessionData
  simp only []
  rw [loadSessionData_cached ds io2 _ _ sid
    (QHash.insert key v (loadSessionData ds io1 fs c sid).1) rfl]
  simp only [QHash.value_insert_self]

/-- C3 as amended, delete to empty removes the file. On a fresh context whose
load opens the session file and yields an empty mapping, storing a key, deleting
it and tearing the context down leaves no file for the session id, and
`getSessionData` on a fresh context then returns the default for every key. -/
theorem delete_to_empty_removes_file (ds : QDataStream) (io1 io2 io3 io4 : SysOutcome)
    (fs : FileSystem) (sid key other : QString) (v d : QVariant)
    (hopen : io1.opens sid = true)
    (hempty : (loadSessionData ds io1 fs Context.fresh sid).1 = []) :
    (destroyed ds io3 (storeThenDelete ds io1 io2 fs Context.fresh sid key v).1
      (storeThenDelete ds io1 io2 fs Context.fresh sid key v).2).files sid = none ∧
    (getSessionData ds io4
      (destroyed ds io3 (storeThenDelete ds io1 io2 fs Context.fresh sid key v).1
        (storeThenDelete ds io1 io2 fs Context.fresh sid key v).2)
      Context.fresh sid other d).1 = d := by
  obtain ⟨hs, hd, hc, _⟩ := storeThenDelete_spec ds io1 io2 fs Context.fresh sid key v
  obtain ⟨_, _, _, file, hname, hp, _, _⟩ :=
    loadSessionData_of_opens ds io1 fs Context.fresh sid rfl hopen
  rw [hempty, QHash.remove_insert_nil] at hd
  have hconn : (storeThenDelete ds io1 io2 fs Context.fresh sid key v).1.connections
      = [file] := by
    rw [hc, hp]
    rfl
  have hgone :
      (destroyed ds io3 (storeThenDelete ds io1 io2 fs Context.fresh sid key v).1
        (storeThenDelete ds io1 io2 fs Context.fresh sid key v).2).files sid = none := by
    rw [destroyed_single ds io3 _ _ file hconn,
      commit_empty ds io3 _ _ file hs (by rw [hd]; rfl), hname]
    exact FileSystem.remove_files_self _ sid
  refine ⟨hgone, ?_⟩
  apply getSessionData_fresh_default
  exact Or.inr (by simp [FileSystem.content, hgone, ds.deserialize_nil])

/-- C4 as amended, a shrinking commit leaves no stale bytes. For every dirty
context with a non-empty mapping `m` whose connection is on the session file,
when the name of the file still leads to the file the context opened at load
(whatever that file holds) and the commit takes the lock, the teardown leaves
exactly `serialize m` in the session file, so that the encoder reads `m` back
from the file when it reads back what it wrote for `m`. -/
theorem commit_leaves_exactly_serialized (ds : QDataStream) (io : SysOutcome) (c : Context)
    (fs : FileSystem) (file : QFile) (m : QVariantHash)
    (hsave : c.session_store_file_save = true)
    (hdata : c.session_store_file_data = some m)
    (hne : m ≠ [])
    (hconn : c.connections = [file])
    (hlink : fs.lookup file.fileName = some file.inode)
    (hlock : io.lock file.fileName = true)
    (hcodec : ds.deserialize (ds.serialize m) = some m) :
    (destroyed ds io c fs).files file.fileName = some (ds.serialize m) ∧
    ds.deserialize ((destroyed ds io c fs).content file.fileName) = some m := by
  have hw := destroyed_write_files ds io c fs file m hsave hdata hne hconn hlink hlock
  refine ⟨hw, ?_⟩
  simp only [FileSystem.content, hw, Option.getD_some, hcodec]

/-- C5, pure reads never write back. After any run of `getSessionData` calls on
a fresh context, with any outcomes of the system calls, the teardown leaves the
file system as it found it: no file written, cut or removed, no access made. -/
theorem pure_reads_never_write_back (ds : QDataStream) (calls : List GetCall)
    (io : SysOutcome) (fs : FileSystem) :
    destroyed ds io (getCalls ds calls (Context.fresh, fs)).1
      (getCalls ds calls (Context.fresh, fs)).2
      = (getCalls ds calls (Context.fresh, fs)).2 :=
  foldl_commit_clean ds io _ (getCalls_save ds calls Context.fresh fs rfl) _ _

/-- C6 as amended, idempotent re-load. For every context whose cache is
already populated or whose first `getSessionData` opens the session file, the
mapping of the first call (the empty mapping of a failed lock included) is
cached in the context, and a second `getSessionData` with any outcomes of the
system calls returns the same value and leaves the context and the file system
untouched: no open, no lock, no read. -/
theorem reload_is_cached (ds : QDataStream) (io1 io2 : SysOutcome) (fs : FileSystem)
    (c : Context) (sid key : QString) (d : QVariant)
    (h : c.session_store_file_data.isSome = true ∨ io1.opens sid = true) :
    (getSessionData ds io1 fs c sid key d).2.1.session_store_file_data
      = some (loadSessionData ds io1 fs c sid).1 ∧
    getSessionData ds io2 (getSessionData ds io1 fs c sid key d).2.2
      (getSessionData ds io1 fs c sid key d).2.1 sid key d
      = getSessionData ds io1 fs c sid key d := by
  have hcached : (loadSessionData ds io1 fs c sid).2.1.session_store_file_data
      = some (loadSessionData ds io1 fs c sid).1 := by
    cases hc : c.session_store_file_data with
    | some m => rw [loadSessionData_cached ds io1 fs c sid m hc]; exact hc
    | none =>
      rw [hc] at h
      rcases h with h | h
      · cases h
      · exact (loadSessionData_of_opens ds io1 fs c sid hc h).2.1
  refine ⟨hcached, ?_⟩
  unfold getSessionData
  simp only []
  rw [loadSessionData_cached ds io2 _ _ sid _ hcached]

/-- C7, tolerance of a missing or corrupt file. When the session file is not
there, or cannot be opened or created, or holds bytes the encoder does not
accept, `getSessionData` on a fresh context returns the default of the caller,
for every key. The call is total: it has no error result. -/
theorem missing_or_corrupt_yields_default (ds : QDataStream) (io : SysOutcome)
    (fs : FileSystem) (sid key : QString) (d : QVariant)
    (h : fs.files sid = none ∨ io.opens sid = false ∨
      ∃ bytes, fs.files sid = some bytes ∧ ds.deserialize bytes = none) :
    (getSessionData ds io fs Context.fresh sid key d).1 = d := by
  apply getSessionData_fresh_default
  rcases h with h | h | ⟨bytes, hb, hbad⟩
  · exact Or.inr (by simp [FileSystem.content, h, ds.deserialize_nil])
  · exact Or.inl h
  · exact Or.inr (by simp [FileSystem.content, hb, hbad])

/-- C8, the contract of `deleteSessionData`. For every context, session id and
key (in the mapping or not), the call returns true and sets the dirty flag;
after it, `getSessionData` on the same context returns the default for the
deleted key, and for every other key the value it would have returned in place
of the delete. -/
theorem deleteSessionData_contract (ds : QDataStream) (io1 io2 : SysOutcome)
    (fs : FileSystem) (c : Context) (sid key : QString) (d : QVariant) :
    (deleteSessionData ds io1 fs c sid key).1 = true ∧
    (deleteSessionData ds io1 fs c sid key).2.1.session_store_file_save = true ∧
    (getSessionData ds io2 (deleteSessionData ds io1 fs c sid key).2.2
      (deleteSessionData ds io1 fs c sid key).2.1 sid key d).1 = d ∧
    ∀ other : QString, other ≠ key →
      (getSessionData ds io2 (deleteSessionData ds io1 fs c sid key).2.2
        (deleteSessionData ds io1 fs c sid key).2.1 sid other d).1
        = (getSessionData ds io1 fs c sid other d).1 := by
  have hget : ∀ k : QString,
      (getSessionData ds io2 (deleteSessionData ds io1 fs c sid key).2.2
        (deleteSessionData ds io1 fs c sid key).2.1 sid k d).1
        = QHash.value k d (QHash.remove key (loadSessionData ds io1 fs c sid).1) := by
    intro k
    unfold getSessionData
    simp only []
    rw [loadSessionData_cached ds io2 _ _ sid
      (QHash.remove key (loadSessionData ds io1 fs c sid).1) rfl]
  refine ⟨rfl, rfl, ?_, ?_⟩
  · rw [hget, QHash.value_remove_self]
  · intro other hne
    rw [hget, QHash.value_remove_other key other d _ hne]
    rfl

/-- C9, a commit that cannot take the lock skips the write. For every context
with a non-empty mapping (dirty or not), when the lock fails for the files of
its connections, the teardown leaves every session file as it was: nothing
written, cut or removed, under any name and in any inode. -/
theorem commit_lock_failure_skips_write (ds : QDataStream) (io : SysOutcome) (c : Context)
    (fs : FileSystem) (m : QVariantHash)
    (hdata : c.session_store_file_data = some m)
    (hne : m ≠ [])
    (hlock : ∀ f ∈ c.connections, io.lock f.fileName = false) :
    (destroyed ds io c fs).files = fs.files ∧
    (destroyed ds io c fs).entries = fs.entries ∧
    (destroyed ds io c fs).inodes = fs.inodes := by
  obtain ⟨hp, he, hi⟩ := foldl_commit_nolock ds io c m hdata hne c.connections fs hlock
  exact ⟨FileSystem.files_congr hp he hi, he, hi⟩

/-- C10 as amended, the cache is keyed by the context alone. After a first
request with `sid1` that opened the file of `sid1` on a fresh context, for every
session id `sid2` whose file name leads neither to the file of `sid1` nor to the
lock file of `sid1`: `getSessionData` with `sid2` returns the value of the
cached mapping and touches no file; `storeSessionData` with `sid2` followed by
a teardown that takes the lock of `sid1` leaves the mapping, with the new key,
in the file of `sid1`, and leaves the file of `sid2` as it was. -/
theorem cache_keyed_by_context_only (ds : QDataStream) (io1 io2 io3 : SysOutcome)
    (fs : FileSystem) (first : Request) (sid1 sid2 key : QString) (v d : QVariant)
    (hopen : io1.opens sid1 = true)
    (hfile : (first.run ds io1 fs Context.fresh sid1).2.lookup sid2
      ≠ (first.run ds io1 fs Context.fresh sid1).2.lookup sid1)
    (hlockfile : fs.paths.resolve sid2 ≠ fs.paths.resolve (lockFileName sid1))
    (hlock : io3.lock sid1 = true) :
    ∃ m : QVariantHash,
      (first.run ds io1 fs Context.fresh sid1).1.session_store_file_data = some m ∧
      getSessionData ds io2 (first.run ds io1 fs Context.fresh sid1).2
        (first.run ds io1 fs Context.fresh sid1).1 sid2 key d
        = (QHash.value key d m, (first.run ds io1 fs Context.fresh sid1).1,
            (first.run ds io1 fs Context.fresh sid1).2) ∧
      (destroyed ds io3
        (storeSessionData ds io2 (first.run ds io1 fs Context.fresh sid1).2
          (first.run ds io1 fs Context.fresh sid1).1 sid2 key v).2.1
        (storeSessionData ds io2 (first.run ds io1 fs Context.fresh sid1).2
          (first.run ds io1 fs Context.fresh sid1).1 sid2 key v).2.2).files sid1
        = some (ds.serialize (QHash.insert key v m)) ∧
      (destroyed ds io3
        (storeSessionData ds io2 (first.run ds io1 fs Context.fresh sid1).2
          (first.run ds io1 fs Context.fresh sid1).1 sid2 key v).2.1
        (storeSessionData ds io2 (first.run ds io1 fs Context.fresh sid1).2
          (first.run ds io1 fs Context.fresh sid1).1 sid2 key v).2.2).files sid2
        = (first.run ds io1 fs Context.fresh sid1).2.files sid2 := by
  obtain ⟨m, file, hm, hconn, hname, hlk, hpaths⟩ :=
    Request.run_of_opens ds io1 fs sid1 first hopen
  have hload := loadSessionData_cached ds io2 (first.run ds io1 fs Context.fresh sid1).2
    (first.run ds io1 fs Context.fresh sid1).1 sid2 m hm
  have hlockf : io3.lock file.fileName = true := by rw [hname]; exact hlock
  refine ⟨m, hm, ?_, ?_, ?_⟩
  · unfold getSessionData
    simp only []
    rw [hload]
  · unfold storeSessionData
    simp only []
    rw [hload]
    have hw := destroyed_write_files ds io3
      { (first.run ds io1 fs Context.fresh sid1).1 with
        session_store_file_data := some (QHash.insert key v m)
        session_store_file_save := true }
      (first.run ds io1 fs Context.fresh sid1).2 file (QHash.insert key v m) rfl rfl
      (QHash.insert_ne_nil _ _ _) hconn (by rw [hname]; exact hlk) hlockf
    rw [hname] at hw
    exact hw
  · unfold storeSessionData
    simp only []
    rw [hload]
    show (destroyed ds io3
      { (first.run ds io1 fs Context.fresh sid1).1 with
        session_store_file_data := some (QHash.insert key v m)
        session_store_file_save := true }
      (first.run ds io1 fs Context.fresh sid1).2).files sid2
      = (first.run ds io1 fs Context.fresh sid1).2.files sid2
    rw [destroyed_single ds io3
      { (first.run ds io1 fs Context.fresh sid1).1 with
        session_store_file_data := some (QHash.insert key v m)
        session_store_file_save := true }
      (first.run ds io1 fs Context.fresh sid1).2 file hconn]
    obtain ⟨hp, he, hi⟩ := commit_write ds io3
      { (first.run ds io1 fs Context.fresh sid1).1 with
        session_store_file_data := some (QHash.insert key v m)
        session_store_file_save := true }
      (first.run ds io1 fs Context.fresh sid1).2 file (QHash.insert key v m) rfl rfl
      (QHash.insert_ne_nil _ _ _) hlockf
    have hlk2 : (commit ds io3
        { (first.run ds io1 fs Context.fresh sid1).1 with
          session_store_file_data := some (QHash.insert key v m)
          session_store_file_save := true }
        (first.run ds io1 fs Context.fresh sid1).2 file).lookup sid2
        = (first.run ds io1 fs Context.fresh sid1).2.lookup sid2 := by
      unfold FileSystem.lookup
      rw [hp, he]
      apply FileSystem.unlocked_lookup_other
      rw [hname, hpaths]
      exact hlockfile
    cases hs2 : (first.run ds io1 fs Context.fresh sid1).2.lookup sid2 with
    | none =>
      rw [hs2] at hlk2
      rw [FileSystem.files_eq_none _ _ hlk2, FileSystem.files_eq_none _ _ hs2]
    | some i =>
      rw [hs2] at hlk2
      have hi2 : i ≠ file.inode := by
        intro h
        apply hfile
        rw [hs2, hlk, h]
      rw [FileSystem.files_of_lookup _ _ _ hlk2, FileSystem.files_of_lookup _ _ _ hs2, hi]
      simp [hi2]

/-! ## Concrete runs -/

/-- C1 at a concrete input: the session file holds garbage, the value stored
under `cart` comes back in the next context. -/
theorem round_trip_across_contexts_witness :
    (∀ m, wire.deserialize (wire.serialize m) = some m) ∧
    ioOk.opens "s1" = true ∧ ioOk.lock "s1" = true ∧
    (getSessionData wire ioOk
      (destroyed wire ioOk
        (storeSessionData wire ioOk fsGarbage Context.fresh "s1" "cart" (QVariant.int 3)).2.1
        (storeSessionData wire ioOk fsGarbage Context.fresh "s1" "cart" (QVariant.int 3)).2.2)
      Context.fresh "s1" "cart" QVariant.invalid).1 = QVariant.int 3 :=
  ⟨wire_round_trip, rfl, rfl,
    round_trip_across_contexts wire ioOk ioOk ioOk fsGarbage "s1" "cart" (QVariant.int 3)
      QVariant.invalid wire_round_trip rfl rfl rfl rfl⟩

/-- C3 as stated fails: the file `s1` is there but cannot be opened, the load
yields the empty mapping, and after store, delete and teardown the file is
still there with its old content. -/
theorem delete_to_empty_keeps_unopened_file :
    (loadSessionData wire ioNoOpen fsOne Context.fresh "s1").1 = [] ∧
    (destroyed wire ioOk emptiedUnopened.1 emptiedUnopened.2).files "s1"
      = some (Wire.put [("user", QVariant.string "ann")]) := by
  decide

/-- C3 as amended at a concrete input: the file holds garbage, the load opens
it and yields the empty mapping, and the teardown removes the file. -/
theorem delete_to_empty_removes_file_witness :
    ioOk.opens "s1" = true ∧
    (loadSessionData wire ioOk fsGarbage Context.fresh "s1").1 = [] ∧
    (destroyed wire ioOk
      (storeThenDelete wire ioOk ioOk fsGarbage Context.fresh "s1" "k" (QVariant.int 1)).1
      (storeThenDelete wire ioOk ioOk fsGarbage Context.fresh "s1" "k"
        (QVariant.int 1)).2).files "s1" = none ∧
    (getSessionData wire ioOk
      (destroyed wire ioOk
        (storeThenDelete wire ioOk ioOk fsGarbage Context.fresh "s1" "k" (QVariant.int 1)).1
        (storeThenDelete wire ioOk ioOk fsGarbage Context.fresh "s1" "k" (QVariant.int 1)).2)
      Context.fresh "s1" "user" (QVariant.bool false)).1 = QVariant.bool false :=
  ⟨rfl, by decide,
    delete_to_empty_removes_file wire ioOk ioOk ioOk ioOk fsGarbage "s1" "k" "user"
      (QVariant.int 1) (QVariant.bool false) rfl (by decide)⟩

/-- C4 as stated fails: a context holds the dirty mapping with the keys `user`
and `k` and its file open on `s1`; meanwhile a second context removed the file
of `s1` and a third one created it anew with the key `x`. The teardown of the
first context takes the lock and writes through its open file, and the session
file of `s1` still holds the key `x` alone, not the mapping of the context. -/
theorem commit_misses_replaced_file :
    storedOne.2.1.session_store_file_save = true ∧
    storedOne.2.1.session_store_file_data
      = some [("user", QVariant.string "ann"), ("k", QVariant.int 1)] ∧
    ioOk.lock "s1" = true ∧
    afterThird.files "s1" = some (Wire.put [("x", QVariant.int 1)]) ∧
    (destroyed wire ioOk storedOne.2.1 afterThird).files "s1"
      = some (Wire.put [("x", QVariant.int 1)]) ∧
    Wire.put [("x", QVariant.int 1)]
      ≠ wire.serialize [("user", QVariant.string "ann"), ("k", QVariant.int 1)] := by
  decide

/-- C4 as amended at a concrete input: the file holds the keys `a`, `b` and
`c`, a new context deletes `c`, and the teardown leaves exactly the encoding of
`a` and `b`, which reads back as those two keys. -/
theorem commit_leaves_exactly_serialized_witness :
    deletedC.2.1.session_store_file_data
      = some [("a", QVariant.int 1), ("b", QVariant.int 2)] ∧
    deletedC.2.1.connections = [{ fileName := "s1", inode := 0, pos := 13 }] ∧
    deletedC.2.2.lookup "s1" = some 0 ∧
    deletedC.2.2.files "s1"
      = some (Wire.put [("a", QVariant.int 1), ("b", QVariant.int 2), ("c", QVariant.int 3)]) ∧
    (destroyed wire ioOk deletedC.2.1 deletedC.2.2).files "s1"
      = some (Wire.put [("a", QVariant.int 1), ("b", QVariant.int 2)]) ∧
    wire.deserialize ((destroyed wire ioOk deletedC.2.1 deletedC.2.2).content "s1")
      = some [("a", QVariant.int 1), ("b", QVariant.int 2)] :=
  ⟨by decide, by decide, by decide, by decide,
    commit_leaves_exactly_serialized wire ioOk deletedC.2.1 deletedC.2.2
      { fileName := "s1", inode := 0, pos := 13 }
      [("a", QVariant.int 1), ("b", QVariant.int 2)]
      (by decide) (by decide) (by decide) (by decide) (by decide) rfl (wire_round_trip _)⟩

/-- C6 as stated fails: when the file cannot be opened the first
`getSessionData` caches nothing, and the second one goes to the file system
again (open, mkpath, open). -/
theorem reload_after_failed_open_reopens :
    readUnopened.2.1.session_store_file_data = none ∧
    (getSessionData wire ioNoOpen readUnopened.2.2 readUnopened.2.1 "s1" "user"
      QVariant.invalid).2.2.accesses
      = FileAccess.openFile "s1" :: FileAccess.mkpath :: FileAccess.openFile "s1"
          :: readUnopened.2.2.accesses := by
  decide

/-- C6 as amended at a concrete input: the first read opens `s1`, the second
one is the first one again, file system and trace included. -/
theorem reload_is_cached_witness :
    (Context.fresh.session_store_file_data.isSome = true ∨ ioOk.opens "s1" = true) ∧
    (getSessionData wire ioOk fsOne Context.fresh "s1" "user"
      QVariant.invalid).2.1.session_store_file_data
      = some (loadSessionData wire ioOk fsOne Context.fresh "s1").1 ∧
    getSessionData wire ioNoLock
      (getSessionData wire ioOk fsOne Context.fresh "s1" "user" QVariant.invalid).2.2
      (getSessionData wire ioOk fsOne Context.fresh "s1" "user" QVariant.invalid).2.1
      "s1" "user" QVariant.invalid
      = getSessionData wire ioOk fsOne Context.fresh "s1" "user" QVariant.invalid :=
  ⟨Or.inr rfl,
    reload_is_cached wire ioOk ioNoLock fsOne Context.fresh "s1" "user" QVariant.invalid
      (Or.inr rfl)⟩

/-- C7 at a concrete input: the file holds bytes that are no mapping. -/
theorem missing_or_corrupt_yields_default_witness :
    (∃ bytes, fsGarbage.files "s1" = some bytes ∧ wire.deserialize bytes = none) ∧
    (getSessionData wire ioOk fsGarbage Context.fresh "s1" "user" (QVariant.int 7)).1
      = QVariant.int 7 :=
  ⟨⟨[7, 7, 7], by decide, by decide⟩,
    missing_or_corrupt_yields_default wire ioOk fsGarbage "s1" "user" (QVariant.int 7)
      (Or.inr (Or.inr ⟨[7, 7, 7], by decide, by decide⟩))⟩

/-- C9 at a concrete input: a dirty context with two keys whose teardown cannot
take the lock. -/
theorem commit_lock_failure_skips_write_witness :
    storedOne.2.1.session_store_file_save = true ∧
    storedOne.2.1.session_store_file_data
      = some [("user", QVariant.string "ann"), ("k", QVariant.int 1)] ∧
    (destroyed wire ioNoLock storedOne.2.1 storedOne.2.2).files = storedOne.2.2.files ∧
    (destroyed wire ioNoLock storedOne.2.1 storedOne.2.2).entries = storedOne.2.2.entries ∧
    (destroyed wire ioNoLock storedOne.2.1 storedOne.2.2).inodes = storedOne.2.2.inodes :=
  ⟨by decide, by decide,
    commit_lock_failure_skips_write wire ioNoLock storedOne.2.1 storedOne.2.2
      [("user", QVariant.string "ann"), ("k", QVariant.int 1)] (by decide) (by decide)
      (fun _ _ => rfl)⟩

/-- C10 as stated fails, twice. The cache was populated by a first read with
`s1`. A store with `s2` put the key `k` into the cached mapping and the teardown
could not take the lock: the file of `s1` still holds the one key it had. A
store with `./s1`, a session id other than `s1` that names the same file,
followed by a teardown that takes the lock: the file of `./s1` is changed. -/
theorem cache_keyed_commit_skipped_or_aliased :
    readOne.2.1.session_store_file_data = some [("user", QVariant.string "ann")] ∧
    storedOther.2.1.session_store_file_data
      = some [("user", QVariant.string "ann"), ("k", QVariant.int 1)] ∧
    (destroyed wire ioNoLock storedOther.2.1 storedOther.2.2).files "s1"
      = some (Wire.put [("user", QVariant.string "ann")]) ∧
    ("./s1" : QString) ≠ "s1" ∧
    readOne.2.2.files "./s1" = some (Wire.put [("user", QVariant.string "ann")]) ∧
    (destroyed wire ioOk storedAlias.2.1 storedAlias.2.2).files "./s1"
      = some (Wire.put [("user", QVariant.string "ann"), ("k", QVariant.int 1)]) := by
  decide

/-- C10 as amended at a concrete input: a first read with `s1` (the context
and file system of `readOne`), then a read and a store with `s2`. -/
theorem cache_keyed_by_context_only_witness :
    ioOk.opens "s1" = true ∧
    readOne.2.2.lookup "s2" ≠ readOne.2.2.lookup "s1" ∧
    fsOne.paths.resolve "s2" ≠ fsOne.paths.resolve (lockFileName "s1") ∧
    ioOk.lock "s1" = true ∧
    ∃ m : QVariantHash,
      readOne.2.1.session_store_file_data = some m ∧
      getSessionData wire ioNoOpen readOne.2.2 readOne.2.1 "s2" "user" QVariant.invalid
        = (QHash.value "user" QVariant.invalid m, readOne.2.1, readOne.2.2) ∧
      (destroyed wire ioOk
        (storeSessionData wire ioNoOpen readOne.2.2 readOne.2.1 "s2" "user"
          (QVariant.int 1)).2.1
        (storeSessionData wire ioNoOpen readOne.2.2 readOne.2.1 "s2" "user"
          (QVariant.int 1)).2.2).files "s1"
        = some (wire.serialize (QHash.insert "user" (QVariant.int 1) m)) ∧
      (destroyed wire ioOk
        (storeSessionData wire ioNoOpen readOne.2.2 readOne.2.1 "s2" "user"
          (QVariant.int 1)).2.1
        (storeSessionData wire ioNoOpen readOne.2.2 readOne.2.1 "s2" "user"
          (QVariant.int 1)).2.2).files "s2"
        = readOne.2.2.files "s2" :=
  ⟨rfl, by decide, by decide, rfl,
    cache_keyed_by_context_only wire ioOk ioNoOpen ioOk fsOne
      (Request.get "user" QVariant.invalid) "s1" "s2" "user" (QVariant.int 1) QVariant.invalid
      rfl (by decide) (by decide) rfl⟩

end Cutelyst
